import Mathlib

/-!
Verification of the OPFS device adapter (src/src/bind/ffmpeg/opfs-device.js).

The JavaScript source registers an Emscripten device whose stream operations
delegate to a FileSystemSyncAccessHandle, and mounts a device node at a path.
We embed the source shallowly:

* mutable JS objects become explicit state passing;
* the access handle (the backing store) becomes an abstract interface
  `AccessHandle` over a state type, so the device operations are proved for
  every backend; a concrete in-memory instance `listStore` is used to
  evaluate the definitions on concrete inputs;
* byte buffers are lists of naturals; positions and seek offsets are
  integers, since JS numbers may go negative in seek arithmetic;
* the Emscripten FS layer (FS.mkdir, FS.mkdev) is not part of the source
  tree, so it is modelled from the spec (see the doc comments below).
-/

/-- Interface of the backing store, as used by the device operations.
The source calls exactly three members of the access handle:
`read(view, { at })`, `write(view, { at })` and `getSize()`.  `readAt`
takes the state, the destination view contents and the absolute position
and returns the transferred count, the updated view contents and the new
state.  `writeAt` takes the state, the source bytes and the position and
returns the transferred count and the new state.  `getSize` is a pure
query. -/
structure AccessHandle (σ : Type) where
  readAt : σ → List Nat → Nat → Nat × List Nat × σ
  writeAt : σ → List Nat → Nat → Nat × σ
  getSize : σ → Nat

/-- One open stream of the hosting file-system layer; the device operations
only ever touch its `position` field. -/
structure OpenStream where
  position : Int
  deriving DecidableEq

/-- JS `buffer.subarray(b, e)` on a list: the elements with index in
`[b, e)`, clamped to the buffer length. -/
def subarray (buf : List Nat) (b e : Nat) : List Nat :=
  (buf.take e).drop b

/-- Translation of the `open` stream operation: the body is `return 0` and
performs no call on the access handle and no assignment to the stream, so
the embedding returns the code 0 with the stream and store state passed
through unchanged. -/
def devOpen {σ : Type} (_H : AccessHandle σ) (s : σ) (stream : OpenStream) :
    Int × OpenStream × σ :=
  (0, stream, s)

/-- Translation of the `close` stream operation: the body is `return 0`;
it makes no flush, close or release call on the access handle, so the
store state passes through unchanged. -/
def devClose {σ : Type} (_H : AccessHandle σ) (s : σ) (stream : OpenStream) :
    Int × OpenStream × σ :=
  (0, stream, s)

/-- Translation of the `read` stream operation:
`accessHandle.read(buffer.subarray(offset, offset + length), { at: position })`.
The backend fills the view; the returned buffer is the input buffer with
the view region replaced by the view contents the backend produced.  The
return value of the source is the byte count returned by the backend,
passed through unmodified. -/
def devRead {σ : Type} (H : AccessHandle σ) (s : σ) (_stream : OpenStream)
    (buffer : List Nat) (offset length : Nat) (position : Nat) :
    Nat × List Nat × σ :=
  let view := subarray buffer offset (offset + length)
  let r := H.readAt s view position
  (r.1, buffer.take offset ++ r.2.1 ++ buffer.drop (offset + view.length), r.2.2)

/-- Translation of the `write` stream operation:
`accessHandle.write(buffer.subarray(offset, offset + length), { at: position })`,
returning the byte count from the backend unmodified. -/
def devWrite {σ : Type} (H : AccessHandle σ) (s : σ) (_stream : OpenStream)
    (buffer : List Nat) (offset length : Nat) (position : Nat) :
    Nat × σ :=
  H.writeAt s (subarray buffer offset (offset + length)) position

/-- Translation of the `llseek` stream operation.  The source reads
`stream.position`, computes the requested position for whence 0 (SEEK_SET),
1 (SEEK_CUR) and 2 (SEEK_END, querying `accessHandle.getSize()` at call
time) and returns it; for any other whence the initial value
`stream.position` is returned.  The body never assigns to
`stream.position`, so the state-passing embedding returns the stream
unchanged. -/
def devLlseek {σ : Type} (H : AccessHandle σ) (s : σ) (stream : OpenStream)
    (offset : Int) (whence : Int) : Int × OpenStream :=
  let position := stream.position
  let result :=
    if whence = 0 then offset
    else if whence = 1 then position + offset
    else if whence = 2 then (H.getSize s : Int) + offset
    else position
  (result, stream)

/-- Modelled from the spec: the pure seek-origin arithmetic of
SeekCursor.resolve (spec 4.3): START is absolute, CURRENT is relative to
the current position, END is relative to the store size.  Used as the
specification side of the refinement theorems about `devLlseek`. -/
def seekResolve (currentPosition offset : Int) (origin : Int) (storeSize : Nat) : Int :=
  if origin = 0 then offset
  else if origin = 1 then currentPosition + offset
  else (storeSize : Int) + offset

/-- Modelled from the spec: `readAt` of the concrete in-memory BackingStore
instance (spec 4.2): copy at most `view.length` bytes starting at the
absolute position, returning the count actually transferred, which falls
short at end of store. -/
def listReadAt (s : List Nat) (view : List Nat) (pos : Nat) : Nat × List Nat × List Nat :=
  let avail := (s.drop pos).take view.length
  (avail.length, avail ++ view.drop avail.length, s)

/-- Modelled from the spec: `writeAt` of the concrete in-memory BackingStore
instance (spec 4.2): write exactly `src.length` bytes at the position,
growing the store when needed (zero filled gap for a sparse write past the
end). -/
def listWriteAt (s : List Nat) (src : List Nat) (pos : Nat) : Nat × List Nat :=
  (src.length,
    s.take pos ++ List.replicate (pos - s.length) 0 ++ src ++ s.drop (pos + src.length))

/-- Modelled from the spec: the in-memory BackingStore instance, packaging
`listReadAt`, `listWriteAt` and the length as the size query.  It exists to
evaluate the device operations on concrete inputs. -/
def listStore : AccessHandle (List Nat) :=
  { readAt := listReadAt, writeAt := listWriteAt, getSize := List.length }


/-! ## The mount path (registerOpfsFile)

Paths are lists of characters; JS string operations on them are embedded as
recursive functions below. -/

abbrev FsPath := List Char

/-- JS `path.split(String.fromCharCode 47)`: split on every slash, keeping empty
segments; the empty string splits to one empty segment. -/
def splitSlash : List Char → List FsPath
  | [] => [[]]
  | c :: rest =>
    match splitSlash rest with
    | [] => [[]]
    | seg :: segs => if c = '/' then [] :: seg :: segs else (c :: seg) :: segs

/-- JS `parts.join` with a slash separator. -/
def joinSlash : List FsPath → FsPath
  | [] => []
  | [s] => s
  | s :: rest => s ++ '/' :: joinSlash rest

/-- Last element of a nonempty list of segments, with the empty segment as
default; this is the value of JS `parts.pop()` (split always yields at
least one segment). -/
def lastD : List FsPath → FsPath
  | [] => []
  | [s] => s
  | _ :: rest => lastD rest

/-- Translation of the path handling in the source:
`parts = path.split(...slash...); fileName = parts.pop();
dirPath = parts.join(...slash...) or the root when empty`.
Returns (dirPath, fileName). -/
def splitPath (p : FsPath) : FsPath × FsPath :=
  let parts := splitSlash p
  let dirPath := joinSlash parts.dropLast
  (if dirPath = [] then ['/'] else dirPath, lastD parts)

/-- Entry of the virtual file tree: a directory or a registered device
node carrying its (major, minor) identity. -/
inductive FSEntry
  | dir : FSEntry
  | dev : Nat × Nat → FSEntry
  deriving DecidableEq

/-- Errors thrown by the modelled FS layer. -/
inductive FSErr
  | EEXIST : FSErr
  | ENOENT : FSErr
  | ENOTDIR : FSErr
  deriving DecidableEq

/-- First-match lookup in the association-list file tree. -/
def lookupTree (t : List (FsPath × FSEntry)) (p : FsPath) : Option FSEntry :=
  match t with
  | [] => none
  | (q, e) :: rest => if q = p then some e else lookupTree rest p

/-- Modelled from the spec: `FS.mkdir` is not in the source tree.  Per the
idempotent-create contract of the directory collaborator (spec 6 and
design note 3), creating a directory fails with EEXIST when any entry
already occupies the path and otherwise records a directory there. -/
def mkdir (t : List (FsPath × FSEntry)) (p : FsPath) : Except FSErr (List (FsPath × FSEntry)) :=
  match lookupTree t p with
  | some _ => Except.error FSErr.EEXIST
  | none => Except.ok ((p, FSEntry.dir) :: t)

/-- Modelled from the spec: `FS.mkdev` is not in the source tree.  Per
`bindDeviceAtPath` (spec 6) and the mount algorithm (spec 4.5), binding a
device resolves the parent first — failing with ENOENT when the parent is
absent and ENOTDIR when a non-directory occupies it — and then fails with
EEXIST when the path itself is occupied, else records the device node. -/
def mkdev (t : List (FsPath × FSEntry)) (p : FsPath) (device : Nat × Nat) :
    Except FSErr (List (FsPath × FSEntry)) :=
  match lookupTree t (splitPath p).1 with
  | none => Except.error FSErr.ENOENT
  | some FSEntry.dir =>
    match lookupTree t p with
    | some _ => Except.error FSErr.EEXIST
    | none => Except.ok ((p, FSEntry.dev device) :: t)
  | some _ => Except.error FSErr.ENOTDIR

/-- The fixed major number of the device class in the source. -/
def majorNum : Nat := 80

/-- Process-wide mutable state touched by `registerOpfsFile`: the minor
counter (JS leaves it undefined before the first call and normalizes the
falsy value to 0, so it is a natural starting at 0), the registry of
device identities passed to `FS.registerDevice` (newest first), and the
virtual file tree. -/
structure SysState where
  minorCounter : Nat
  devices : List (Nat × Nat)
  tree : List (FsPath × FSEntry)
  deriving DecidableEq

/-- Translation of the first part of the `try` block of `registerOpfsFile`:
allocate the next minor, register the device under the new identity, and
ensure the parent directory exists with the failure of `FS.mkdir`
swallowed by the inner catch.  None of these statements can throw out of
the block. -/
def attemptMid (st : SysState) (p : FsPath) : SysState :=
  let minor := st.minorCounter + 1
  let st1 : SysState :=
    { st with minorCounter := minor, devices := (majorNum, minor) :: st.devices }
  match mkdir st1.tree (splitPath p).1 with
  | Except.ok t => { st1 with tree := t }
  | Except.error _ => st1

/-- Translation of the whole `try` block of `registerOpfsFile`: after
`attemptMid`, bind the device node at the path with `FS.mkdev` — the only
statement in the block that can throw.  The first component is the outcome
of the block: `Except.ok` when it runs to completion, `Except.error e` when
`FS.mkdev` throws `e`.  State changes made before the throw persist, as
they do in the source. -/
def registerAttempt (st : SysState) (p : FsPath) : Except FSErr Unit × SysState :=
  let st2 := attemptMid st p
  match mkdev st2.tree p (majorNum, st.minorCounter + 1) with
  | Except.ok t => (Except.ok (), { st2 with tree := t })
  | Except.error e => (Except.error e, st2)

/-- Translation of `registerOpfsFile`: when the FS layer is unavailable the
function returns false at once with no state change; otherwise it runs the
`try` block and maps its outcome to the boolean result, the catch branch
turning every thrown error into false. -/
def registerOpfsFile (fsAvailable : Bool) (st : SysState) (p : FsPath) :
    Bool × SysState :=
  if fsAvailable then
    match registerAttempt st p with
    | (Except.ok _, st1) => (true, st1)
    | (Except.error _, st1) => (false, st1)
  else (false, st)

/-- Initial process state: the counter unset (falsy, normalized to 0), no
registered devices, and a file tree holding only the root directory. -/
def initState : SysState :=
  { minorCounter := 0, devices := [], tree := [(['/'], FSEntry.dir)] }

/-- Sequence of mount calls with the FS layer available, returning the
list of boolean results in call order and the final state. -/
def mountAll (st : SysState) (paths : List FsPath) : List Bool × SysState :=
  match paths with
  | [] => ([], st)
  | p :: ps =>
    let r := registerOpfsFile true st p
    let rest := mountAll r.2 ps
    (r.1 :: rest.1, rest.2)

/-- Device identities (major, minor) minted in call order when the counter
holds `c - 1` before the first of `k` calls: (80, c), (80, c+1), ... -/
def mintedSeq (c : Nat) : Nat → List (Nat × Nat)
  | 0 => []
  | k + 1 => (majorNum, c) :: mintedSeq (c + 1) k

/-! ## Helper lemmas -/

theorem subarray_eq_drop_take (buf : List Nat) (o l : Nat) :
    subarray buf o (o + l) = (buf.drop o).take l := by
  simp [subarray, List.drop_take, Nat.add_sub_cancel_left]

theorem subarray_length_le (buf : List Nat) (o l : Nat) :
    (subarray buf o (o + l)).length ≤ l := by
  rw [subarray_eq_drop_take]
  exact (List.length_take_le l (buf.drop o))

theorem splitSlash_no_slash (n : List Char) (h : '/' ∉ n) : splitSlash n = [n] := by
  induction n with
  | nil => rfl
  | cons c rest ih =>
    have hc : c ≠ '/' := fun hc => h (hc ▸ List.mem_cons_self c rest)
    have hr : '/' ∉ rest := fun hm => h (List.mem_cons_of_mem c hm)
    simp [splitSlash, ih hr, hc]

theorem splitPath_root (n : List Char) (h : '/' ∉ n) :
    splitPath ('/' :: n) = (['/'], n) := by
  have hs : splitSlash ('/' :: n) = [[], n] := by
    simp [splitSlash, splitSlash_no_slash n h]
  simp [splitPath, hs, joinSlash, lastD]

theorem lookupTree_cons (q : FsPath) (e : FSEntry) (t : List (FsPath × FSEntry))
    (p : FsPath) :
    lookupTree ((q, e) :: t) p = if q = p then some e else lookupTree t p := rfl

/-- Mounting a fresh root-level path from a state whose tree has the root
directory: the call succeeds and the state change is exactly one counter
increment, one freshly minted identity and one new tree binding. -/
theorem register_root_step (st : SysState) (n : List Char)
    (h2 : '/' ∉ n)
    (hroot : lookupTree st.tree ['/'] = some FSEntry.dir)
    (hfresh : lookupTree st.tree ('/' :: n) = none) :
    registerOpfsFile true st ('/' :: n) =
      (true,
        { minorCounter := st.minorCounter + 1,
          devices := (80, st.minorCounter + 1) :: st.devices,
          tree := (('/' :: n), FSEntry.dev (80, st.minorCounter + 1)) :: st.tree }) := by
  have hsp : splitPath ('/' :: n) = (['/'], n) := splitPath_root n h2
  simp [registerOpfsFile, registerAttempt, attemptMid, hsp, mkdir, mkdev, hroot, hfresh,
    majorNum]

theorem mintedSeq_fst (k c : Nat) :
    (mintedSeq c k).map Prod.fst = List.replicate k 80 := by
  induction k generalizing c with
  | zero => rfl
  | succ k ih => simp [mintedSeq, majorNum, ih, List.replicate_succ]

theorem mintedSeq_chain (k c : Nat) :
    List.Chain' (fun a b => a.2 < b.2) (mintedSeq c k) := by
  induction k generalizing c with
  | zero => exact List.chain'_nil
  | succ k ih =>
    cases k with
    | zero => simp [mintedSeq]
    | succ m =>
      refine List.Chain'.cons ?_ (ih (c + 1))
      simp [mintedSeq]

/-- Invariant-carrying induction for a sequence of mounts at distinct fresh
root-level paths: every call succeeds and the registry gains exactly the
consecutively minted identities. -/
theorem mountAll_roots_aux (names : List (List Char)) : ∀ (st : SysState),
    names.Nodup → (∀ n ∈ names, n ≠ [] ∧ '/' ∉ n) →
    lookupTree st.tree ['/'] = some FSEntry.dir →
    (∀ n ∈ names, lookupTree st.tree ('/' :: n) = none) →
    (mountAll st (names.map (fun n => '/' :: n))).1 = List.replicate names.length true ∧
    (mountAll st (names.map (fun n => '/' :: n))).2.devices =
      (mintedSeq (st.minorCounter + 1) names.length).reverse ++ st.devices := by
  induction names with
  | nil =>
    intro st _ _ _ _
    simp [mountAll, mintedSeq]
  | cons n ns ih =>
    intro st hnd hv hroot hfresh
    have hvn := hv n (List.mem_cons_self n ns)
    have hstep := register_root_step st n hvn.2 hroot
      (hfresh n (List.mem_cons_self n ns))
    have hne : ('/' :: n) ≠ (['/'] : List Char) := by
      intro hc
      exact hvn.1 (congrArg List.tail hc)
    obtain ⟨hn_not, hnd2⟩ := List.nodup_cons.mp hnd
    have hroot1 : lookupTree ((('/' :: n), FSEntry.dev (80, st.minorCounter + 1)) :: st.tree)
        ['/'] = some FSEntry.dir := by
      rw [lookupTree_cons, if_neg hne]
      exact hroot
    have hfresh1 : ∀ m ∈ ns,
        lookupTree ((('/' :: n), FSEntry.dev (80, st.minorCounter + 1)) :: st.tree)
          ('/' :: m) = none := by
      intro m hm
      have hnm : n ≠ m := fun h => hn_not (h ▸ hm)
      have hcm : ('/' :: n) ≠ ('/' :: m) := by simp [hnm]
      rw [lookupTree_cons, if_neg hcm]
      exact hfresh m (List.mem_cons_of_mem n hm)
    have hih := ih
      { minorCounter := st.minorCounter + 1,
        devices := (80, st.minorCounter + 1) :: st.devices,
        tree := (('/' :: n), FSEntry.dev (80, st.minorCounter + 1)) :: st.tree }
      hnd2 (fun m hm => hv m (List.mem_cons_of_mem n hm)) hroot1 hfresh1
    simp only [List.map_cons, mountAll, hstep]
    refine ⟨?_, ?_⟩
    · simp [hih.1, List.replicate_succ]
    · simp [hih.2, mintedSeq, majorNum, List.reverse_cons, List.append_assoc]


/-! ## Claim theorems -/

/-- C1, counterexample.  The claim says the llseek operation updates the
stored position of the stream to the computed value.  On a stream at
position 5, llseek with offset 10 and whence START returns 10 while the
stored position of the stream is still 5 afterwards: the source body never
assigns to the position field. -/
theorem llseek_no_store_update_cex :
    (devLlseek listStore [] ⟨5⟩ 10 0).1 = 10 ∧
    (devLlseek listStore [] ⟨5⟩ 10 0).2.position = 5 ∧
    ((5 : Int) ≠ 10) := by decide

/-- C1, amended.  For every open stream and every llseek call with a valid
whence (0 START, 1 CURRENT, 2 END), the operation computes the new
position by the seek-origin arithmetic of `seekResolve` and returns that
value; the stored position of the stream is left unchanged by the
operation itself (the hosting file-system layer assigns the returned
value). -/
theorem llseek_resolve_frame {σ : Type} (H : AccessHandle σ) (s : σ)
    (st : OpenStream) (offset whence : Int)
    (hw : whence = 0 ∨ whence = 1 ∨ whence = 2) :
    (devLlseek H s st offset whence).1
      = seekResolve st.position offset whence (H.getSize s) ∧
    (devLlseek H s st offset whence).2 = st := by
  rcases hw with h | h | h <;> subst h <;> simp [devLlseek, seekResolve]

/-- C1, witness for `llseek_resolve_frame` at whence CURRENT on a concrete
store and stream. -/
theorem llseek_resolve_frame_witness :
    (devLlseek listStore [9, 9, 9] ⟨5⟩ 10 1).1
      = seekResolve (OpenStream.mk 5).position 10 1 (listStore.getSize [9, 9, 9]) ∧
    (devLlseek listStore [9, 9, 9] ⟨5⟩ 10 1).2 = ⟨5⟩ :=
  llseek_resolve_frame listStore [9, 9, 9] ⟨5⟩ 10 1 (by decide)

/-- C2, counterexample.  The claim says the resulting position is a
non-negative integer; llseek with offset -1 and whence START on a stream
at position 0 returns -1, which is negative — the source performs no
validation of the computed position. -/
theorem llseek_negative_result_cex :
    (devLlseek listStore [] ⟨0⟩ (-1) 0).1 = -1 ∧
    ¬(0 ≤ (devLlseek listStore [] ⟨0⟩ (-1) 0).1) := by decide

/-- C2, amended.  For every llseek call with a valid origin the result is
the exact seek-origin arithmetic value: it is never clamped to the store
size (whenever the arithmetic value exceeds the size, the result equals
that value), and it is non-negative exactly when the arithmetic value is —
a negative arithmetic value is returned as is, not rejected. -/
theorem llseek_unclamped {σ : Type} (H : AccessHandle σ) (s : σ)
    (st : OpenStream) (offset whence : Int)
    (hw : whence = 0 ∨ whence = 1 ∨ whence = 2) :
    (devLlseek H s st offset whence).1
      = seekResolve st.position offset whence (H.getSize s) ∧
    ((H.getSize s : Int) < seekResolve st.position offset whence (H.getSize s) →
      (devLlseek H s st offset whence).1
        = seekResolve st.position offset whence (H.getSize s)) ∧
    (0 ≤ (devLlseek H s st offset whence).1 ↔
      0 ≤ seekResolve st.position offset whence (H.getSize s)) := by
  rcases hw with h | h | h <;> subst h <;> simp [devLlseek, seekResolve]

/-- C2, witness for `llseek_unclamped` at whence END with a positive
offset on a concrete store of size 3: the arithmetic value 3 + 5 exceeds
the size and is returned unclamped. -/
theorem llseek_unclamped_witness :
    (devLlseek listStore [9, 9, 9] ⟨0⟩ 5 2).1
      = seekResolve (OpenStream.mk 0).position 5 2 (listStore.getSize [9, 9, 9]) ∧
    ((listStore.getSize [9, 9, 9] : Int)
        < seekResolve (OpenStream.mk 0).position 5 2 (listStore.getSize [9, 9, 9]) →
      (devLlseek listStore [9, 9, 9] ⟨0⟩ 5 2).1
        = seekResolve (OpenStream.mk 0).position 5 2 (listStore.getSize [9, 9, 9])) ∧
    (0 ≤ (devLlseek listStore [9, 9, 9] ⟨0⟩ 5 2).1 ↔
      0 ≤ seekResolve (OpenStream.mk 0).position 5 2 (listStore.getSize [9, 9, 9])) :=
  llseek_unclamped listStore [9, 9, 9] ⟨0⟩ 5 2 (by decide)

/-- C7, counterexample.  The claim says open initializes the stored
position of the stream to 0.  On a stream whose position field holds 7,
the open operation leaves it at 7: the source body is just `return 0` and
assigns nothing (the hosting layer creates streams at position 0). -/
theorem open_no_position_init_cex :
    (devOpen listStore [] ⟨7⟩).2.1.position = 7 ∧ ((7 : Int) ≠ 0) := by decide

/-- C7, amended.  For every stream, the open operation returns the success
code 0, leaves the stream exactly as it was — in particular it does not
itself set the position, which the hosting layer initializes to 0 at
stream creation — and does not touch the backing store.  It always
succeeds. -/
theorem open_noop {σ : Type} (H : AccessHandle σ) (s : σ) (st : OpenStream) :
    devOpen H s st = (0, st, s) := rfl

/-- C8, confirmed.  On a store of size S, llseek(0, END) followed by
llseek(-k, CURRENT) — with the hosting layer storing the returned
position between the calls — yields position S - k for every 0 ≤ k ≤ S.
The store state at the second call is universally quantified separately,
so END demonstrably uses the size queried at the time of the first seek
and nothing later. -/
theorem seek_roundtrip_end_current {σ : Type} (H : AccessHandle σ) (s s2 : σ)
    (st : OpenStream) (k : Int)
    (h0 : 0 ≤ k) (hk : k ≤ (H.getSize s : Int)) :
    (devLlseek H s2 ⟨(devLlseek H s st 0 2).1⟩ (-k) 1).1
      = (H.getSize s : Int) - k ∧
    0 ≤ (devLlseek H s2 ⟨(devLlseek H s st 0 2).1⟩ (-k) 1).1 := by
  simp [devLlseek]
  omega

/-- C8, witness: store of size 3, second call on an emptied store, k = 1,
result 2. -/
theorem seek_roundtrip_end_current_witness :
    (devLlseek listStore [] ⟨(devLlseek listStore [9, 9, 9] ⟨7⟩ 0 2).1⟩ (-1) 1).1
      = (listStore.getSize [9, 9, 9] : Int) - 1 ∧
    0 ≤ (devLlseek listStore [] ⟨(devLlseek listStore [9, 9, 9] ⟨7⟩ 0 2).1⟩ (-1) 1).1 :=
  seek_roundtrip_end_current listStore [9, 9, 9] [] ⟨7⟩ 1 (by decide) (by decide)

/-- C9, confirmed.  For every backing store and every stream, the close
operation returns the success code 0 (it always succeeds) and the backing
store state after the call equals the state before: the source body makes
no release, flush, close or finalize call on the access handle. -/
theorem close_frame {σ : Type} (H : AccessHandle σ) (s : σ) (st : OpenStream) :
    devClose H s st = (0, st, s) := rfl

/-- C6, confirmed.  For every backing store, the write operation passes
exactly the byte range buffer[offset, offset + length) together with the
given absolute position straight to the backend and returns its
transferred count and resulting state unmodified; the read operation
passes the view of that same range and the position to the backend and
returns its count and state unmodified, the count lying in 0..length
whenever the backend respects the view bound; and both operations ignore
the stream cursor entirely — the result is identical for any two streams.
No buffering or caching intervenes: each call is a single backend call. -/
theorem read_write_passthrough {σ : Type} (H : AccessHandle σ) (s : σ)
    (st st2 : OpenStream) (buffer : List Nat) (offset length position : Nat)
    (hr : (H.readAt s (subarray buffer offset (offset + length)) position).1
        ≤ (subarray buffer offset (offset + length)).length) :
    devWrite H s st buffer offset length position
        = H.writeAt s ((buffer.drop offset).take length) position ∧
    (devRead H s st buffer offset length position).1
        = (H.readAt s ((buffer.drop offset).take length) position).1 ∧
    (devRead H s st buffer offset length position).1 ≤ length ∧
    (devRead H s st buffer offset length position).2.2
        = (H.readAt s ((buffer.drop offset).take length) position).2.2 ∧
    devRead H s st buffer offset length position
        = devRead H s st2 buffer offset length position ∧
    devWrite H s st buffer offset length position
        = devWrite H s st2 buffer offset length position := by
  refine ⟨?_, ?_, ?_, ?_, rfl, rfl⟩
  · rw [devWrite, subarray_eq_drop_take]
  · rw [devRead, subarray_eq_drop_take]
  · exact le_trans hr (subarray_length_le buffer offset length)
  · rw [devRead, subarray_eq_drop_take]

/-- C6, witness on the concrete in-memory store: store [5,6,7,8], buffer
of three zero bytes, range [1, 3), position 1. -/
theorem read_write_passthrough_witness :
    devWrite listStore [5, 6, 7, 8] ⟨0⟩ [0, 0, 0] 1 2 1
        = listStore.writeAt [5, 6, 7, 8] (([0, 0, 0].drop 1).take 2) 1 ∧
    (devRead listStore [5, 6, 7, 8] ⟨0⟩ [0, 0, 0] 1 2 1).1
        = (listStore.readAt [5, 6, 7, 8] (([0, 0, 0].drop 1).take 2) 1).1 ∧
    (devRead listStore [5, 6, 7, 8] ⟨0⟩ [0, 0, 0] 1 2 1).1 ≤ 2 ∧
    (devRead listStore [5, 6, 7, 8] ⟨0⟩ [0, 0, 0] 1 2 1).2.2
        = (listStore.readAt [5, 6, 7, 8] (([0, 0, 0].drop 1).take 2) 1).2.2 ∧
    devRead listStore [5, 6, 7, 8] ⟨0⟩ [0, 0, 0] 1 2 1
        = devRead listStore [5, 6, 7, 8] ⟨9⟩ [0, 0, 0] 1 2 1 ∧
    devWrite listStore [5, 6, 7, 8] ⟨0⟩ [0, 0, 0] 1 2 1
        = devWrite listStore [5, 6, 7, 8] ⟨9⟩ [0, 0, 0] 1 2 1 :=
  read_write_passthrough listStore [5, 6, 7, 8] ⟨0⟩ ⟨9⟩ [0, 0, 0] 1 2 1 (by decide)

theorem mkdev_ok_lookup (tr : List (FsPath × FSEntry)) (p : FsPath) (d : Nat × Nat)
    (t : List (FsPath × FSEntry)) (h : mkdev tr p d = Except.ok t) :
    lookupTree t p = some (FSEntry.dev d) := by
  unfold mkdev at h
  rcases h1 : lookupTree tr (splitPath p).1 with _ | e
  · rw [h1] at h
    exact absurd h (by simp)
  · cases e with
    | dir =>
      rw [h1] at h
      rcases h2 : lookupTree tr p with _ | f
      · rw [h2] at h
        simp only [Except.ok.injEq] at h
        rw [← h, lookupTree_cons, if_pos rfl]
      · rw [h2] at h
        exact absurd h (by simp)
    | dev g =>
      rw [h1] at h
      exact absurd h (by simp)

/-- C3, counterexample.  The claim says every sequence of mounts at
distinct paths succeeds in full.  The two paths here are distinct, yet the
second mount fails: the first call binds a device node at the parent path
of the second, so the second path has a non-directory parent. -/
theorem mount_distinct_failure_cex :
    ((['/', 'a'] : FsPath) ≠ ['/', 'a', '/', 'b']) ∧
    (mountAll initState [['/', 'a'], ['/', 'a', '/', 'b']]).1 = [true, false] := by
  decide

/-- C3, amended.  For every sequence of N mount calls at distinct
root-level paths (a slash followed by a nonempty name containing no
slash), all N succeed, and the device identities produced are exactly
(80, 1), (80, 2), ..., (80, N) in call order: all with the fixed major 80
and with strictly increasing minor numbers starting at 1, so no two calls
produce the same pair.  For arbitrary distinct paths the all-succeed part
can fail, namely when a path sits below a non-directory entry produced by
an earlier mount (see the counterexample). -/
theorem mount_distinct_roots (names : List (List Char))
    (hnd : names.Nodup) (hv : ∀ n ∈ names, n ≠ [] ∧ '/' ∉ n) :
    (mountAll initState (names.map (fun n => '/' :: n))).1
      = List.replicate names.length true ∧
    (mountAll initState (names.map (fun n => '/' :: n))).2.devices.reverse
      = mintedSeq 1 names.length ∧
    (mintedSeq 1 names.length).map Prod.fst = List.replicate names.length 80 ∧
    List.Chain' (fun a b => a.2 < b.2) (mintedSeq 1 names.length) := by
  have hfresh : ∀ n ∈ names, lookupTree initState.tree ('/' :: n) = none := by
    intro n hn
    have hne : (['/'] : List Char) ≠ ('/' :: n) := by
      intro hc
      exact (hv n hn).1 (congrArg List.tail hc).symm
    rw [show initState.tree = [(['/'], FSEntry.dir)] from rfl, lookupTree_cons,
      if_neg hne]
    rfl
  have haux := mountAll_roots_aux names initState hnd hv (by decide) hfresh
  refine ⟨haux.1, ?_, mintedSeq_fst names.length 1, mintedSeq_chain names.length 1⟩
  rw [haux.2]
  simp [initState]

/-- C3, witness for `mount_distinct_roots` with the two distinct
root-level names a and b: both mounts succeed and the minted identities
are (80, 1) and (80, 2). -/
theorem mount_distinct_roots_witness :
    (mountAll initState ([['a'], ['b']].map (fun n => '/' :: n))).1
      = List.replicate 2 true ∧
    (mountAll initState ([['a'], ['b']].map (fun n => '/' :: n))).2.devices.reverse
      = mintedSeq 1 2 ∧
    (mintedSeq 1 2).map Prod.fst = List.replicate 2 80 ∧
    List.Chain' (fun a b => a.2 < b.2) (mintedSeq 1 2) :=
  mount_distinct_roots [['a'], ['b']] (by decide) (by decide)

/-- C4, confirmed.  For every state in which the path is already mounted
(an entry occupies it and its parent is a directory, as any completed
mount leaves it), a second registerOpfsFile call at that path returns
false, the error thrown inside the try block and swallowed by the catch is
EEXIST — the duplicate-mount condition of the spec taxonomy — and the
file tree, in particular the binding of the first mount at that path, is
exactly what it was before the failed call. -/
theorem duplicate_mount_rejected (st : SysState) (p : FsPath) (e : FSEntry)
    (hp : lookupTree st.tree p = some e)
    (hd : lookupTree st.tree (splitPath p).1 = some FSEntry.dir) :
    (registerOpfsFile true st p).1 = false ∧
    (registerAttempt st p).1 = Except.error FSErr.EEXIST ∧
    (registerOpfsFile true st p).2.tree = st.tree := by
  simp [registerOpfsFile, registerAttempt, attemptMid, mkdir, mkdev, hp, hd]

/-- C4, witness: mount the root-level path a on the initial state, then
mount it again; the second call fails with EEXIST and leaves the tree of
the first mount untouched. -/
theorem duplicate_mount_rejected_witness :
    (registerOpfsFile true (registerOpfsFile true initState ['/', 'a']).2 ['/', 'a']).1
      = false ∧
    (registerAttempt (registerOpfsFile true initState ['/', 'a']).2 ['/', 'a']).1
      = Except.error FSErr.EEXIST ∧
    (registerOpfsFile true (registerOpfsFile true initState ['/', 'a']).2 ['/', 'a']).2.tree
      = (registerOpfsFile true initState ['/', 'a']).2.tree :=
  duplicate_mount_rejected (registerOpfsFile true initState ['/', 'a']).2 ['/', 'a']
    (FSEntry.dev (80, 1)) (by decide) (by decide)

/-- C5, confirmed.  Parent-directory creation during a mount is
idempotent: when the parent path already holds a directory the mount
silently proceeds and succeeds (for a fresh target path); when the parent
is absent it is created as a directory and the mount succeeds; and when a
non-directory entry (a device node) occupies the parent path the mount
fails, the swallowed error being ENOTDIR — the InvalidPath condition of
the spec taxonomy. -/
theorem mount_parent_cases (st : SysState) (p : FsPath) :
    (lookupTree st.tree (splitPath p).1 = some FSEntry.dir →
      lookupTree st.tree p = none →
      (registerOpfsFile true st p).1 = true) ∧
    (lookupTree st.tree (splitPath p).1 = none →
      lookupTree st.tree p = none → p ≠ (splitPath p).1 →
      (registerOpfsFile true st p).1 = true ∧
      lookupTree (registerOpfsFile true st p).2.tree (splitPath p).1
        = some FSEntry.dir) ∧
    (∀ d, lookupTree st.tree (splitPath p).1 = some (FSEntry.dev d) →
      (registerOpfsFile true st p).1 = false ∧
      (registerAttempt st p).1 = Except.error FSErr.ENOTDIR) := by
  refine ⟨?_, ?_, ?_⟩
  · intro hd hp
    simp [registerOpfsFile, registerAttempt, attemptMid, mkdir, mkdev, hd, hp]
  · intro hd hp hne
    have hne2 : (splitPath p).1 ≠ p := fun h => hne h.symm
    simp [registerOpfsFile, registerAttempt, attemptMid, mkdir, mkdev, hd, hp,
      lookupTree_cons, hne2, hne]
  · intro d hd
    simp [registerOpfsFile, registerAttempt, attemptMid, mkdir, mkdev, hd]

/-- C5, witness instantiating the three cases of `mount_parent_cases`:
the parent directory of the root-level path a already exists (the root);
the parent of the nested path d slash f is absent and gets created; and
after mounting a as a device node, the nested path below a has a
non-directory parent, so its mount fails with ENOTDIR. -/
theorem mount_parent_cases_witness :
    (registerOpfsFile true initState ['/', 'a']).1 = true ∧
    ((registerOpfsFile true initState ['/', 'd', '/', 'f']).1 = true ∧
      lookupTree (registerOpfsFile true initState ['/', 'd', '/', 'f']).2.tree
        (splitPath ['/', 'd', '/', 'f']).1 = some FSEntry.dir) ∧
    ((registerOpfsFile true (registerOpfsFile true initState ['/', 'a']).2
        ['/', 'a', '/', 'b']).1 = false ∧
      (registerAttempt (registerOpfsFile true initState ['/', 'a']).2
        ['/', 'a', '/', 'b']).1 = Except.error FSErr.ENOTDIR) :=
  ⟨(mount_parent_cases initState ['/', 'a']).1 (by decide) (by decide),
   (mount_parent_cases initState ['/', 'd', '/', 'f']).2.1 (by decide) (by decide)
     (by decide),
   (mount_parent_cases (registerOpfsFile true initState ['/', 'a']).2
       ['/', 'a', '/', 'b']).2.2 (80, 1) (by decide)⟩

/-- C10, confirmed.  The mount entry point is a total function of its
inputs — every throw inside the try block is caught, so no exception
reaches the caller.  When the FS layer is unavailable it returns false
with no state change whatsoever.  Otherwise it returns true exactly when
the try block ran to completion, and in that case the device node is bound
at the path under the freshly allocated identity (80, counter + 1). -/
theorem register_no_throw (st : SysState) (p : FsPath) :
    registerOpfsFile false st p = (false, st) ∧
    ((registerOpfsFile true st p).1 = true ↔
      (registerAttempt st p).1 = Except.ok ()) ∧
    ((registerAttempt st p).1 = Except.ok () →
      lookupTree (registerOpfsFile true st p).2.tree p
        = some (FSEntry.dev (80, st.minorCounter + 1))) := by
  cases hmk : mkdev (attemptMid st p).tree p (majorNum, st.minorCounter + 1) with
  | ok t =>
    have hA : registerAttempt st p
        = (Except.ok (), { attemptMid st p with tree := t }) := by
      simp [registerAttempt, hmk]
    have hR : registerOpfsFile true st p
        = (true, { attemptMid st p with tree := t }) := by
      simp [registerOpfsFile, hA]
    refine ⟨rfl, ?_, ?_⟩
    · simp [hR, hA]
    · intro _
      rw [hR]
      exact mkdev_ok_lookup (attemptMid st p).tree p (majorNum, st.minorCounter + 1)
        t hmk
  | error e =>
    have hA : registerAttempt st p = (Except.error e, attemptMid st p) := by
      simp [registerAttempt, hmk]
    have hR : registerOpfsFile true st p = (false, attemptMid st p) := by
      simp [registerOpfsFile, hA]
    refine ⟨rfl, ?_, ?_⟩
    · simp [hR, hA]
    · intro hok
      rw [hA] at hok
      exact absurd hok (by simp)

/-- C10, witness at the initial state and the root-level path a: the
FS-unavailable call is the identity returning false, the available call
returns true, and the node is bound under identity (80, 1). -/
theorem register_no_throw_witness :
    registerOpfsFile false initState ['/', 'a'] = (false, initState) ∧
    ((registerOpfsFile true initState ['/', 'a']).1 = true ↔
      (registerAttempt initState ['/', 'a']).1 = Except.ok ()) ∧
    ((registerAttempt initState ['/', 'a']).1 = Except.ok () →
      lookupTree (registerOpfsFile true initState ['/', 'a']).2.tree ['/', 'a']
        = some (FSEntry.dev (80, 1))) :=
  register_no_throw initState ['/', 'a']
